import Mathlib

/-
Verification development for the Conway Game of Life implementation in
src/main.c.  The C program keeps two global N x N int grids (`board` and
`board_w`), counts toroidal Moore neighbors with wraparound written as
(i-1+sq)%sq etc., updates the board in place one generation at a time
inside loop_board, and persists the board to a text file ('#' for alive,
'-' for dead) after each generation and once more at the end of main.

The shallow embedding below renders a grid as a total function from a
pair of Int coordinates to the stored int value; the C program only ever
touches coordinates in [0, N), which the theorems make explicit.  C's `%`
on int truncates toward zero, which is Int.tmod in Lean, so the wrapping
expressions are embedded with Int.tmod.
-/

namespace ConwayGoL

/-- Cell states, from the defines in main.c (ALIVE 1, DEAD 0). -/
abbrev ALIVE : Int := 1

/-- Cell states, from the defines in main.c (ALIVE 1, DEAD 0). -/
abbrev DEAD : Int := 0

/-- A board models one of the global `int**` grids of main.c as a total
function from (row, column) to the stored int value.  Real accesses only
use coordinates in [0, N). -/
abbrev Board := Int → Int → Int

/-- A single array-cell assignment `b[i][j] = v`. -/
def setCell (b : Board) (i j v : Int) : Board :=
  fun x y => if x = i ∧ y = j then v else b x y

/-- kill_cell from main.c: `board[i][j] = DEAD`. -/
def kill_cell (b : Board) (i j : Int) : Board := setCell b i j DEAD

/-- produce_cell from main.c: `board[i][j] = ALIVE`. -/
def produce_cell (b : Board) (i j : Int) : Board := setCell b i j ALIVE

/-- create_board from main.c zero-initializes (memset 0) each freshly
allocated grid, so a newly created grid is everywhere DEAD. -/
def create_board : Board := fun _ _ => DEAD

/-- copy_board from main.c overwrites dst with src row by row (memcpy);
the result is the new contents of dst, namely src. -/
def copy_board (src _dst : Board) : Board := src

/-- count_neighbors from main.c: the eight reads of board_w at
coordinates wrapped with C's (i-1+sq)%sq pattern (C `%` on nonnegative
operands is truncating mod, Int.tmod), summed. -/
def count_neighbors (sq : Nat) (board_w : Board) (i j : Int) : Int :=
  let up    := board_w (Int.tmod (i - 1 + sq) sq) j
  let down  := board_w (Int.tmod (i + 1 + sq) sq) j
  let left  := board_w i (Int.tmod (j - 1 + sq) sq)
  let right := board_w i (Int.tmod (j + 1 + sq) sq)
  let ll := board_w (Int.tmod (i + 1 + sq) sq) (Int.tmod (j - 1 + sq) sq)
  let lr := board_w (Int.tmod (i + 1 + sq) sq) (Int.tmod (j + 1 + sq) sq)
  let ul := board_w (Int.tmod (i - 1 + sq) sq) (Int.tmod (j - 1 + sq) sq)
  let ur := board_w (Int.tmod (i - 1 + sq) sq) (Int.tmod (j + 1 + sq) sq)
  up + down + left + right + ll + lr + ul + ur

/-- The body of loop_board's inner double loop for one cell (i, j):
count neighbors in board_w, then the if/else-if ladder that either calls
kill_cell, calls produce_cell, or leaves the board untouched. -/
def update_cell (sq : Nat) (board_w : Board) (b : Board) (i j : Int) : Board :=
  let n := count_neighbors sq board_w i j
  if n < 2 then kill_cell b i j
  else if board_w i j = DEAD ∧ n = 3 then produce_cell b i j
  else if n < 4 ∧ n > 1 then b
  else if n > 3 then kill_cell b i j
  else b

/-- Visiting a list of cells in order, applying update_cell at each while
reading neighbor counts from the fixed snapshot board_w. -/
def foldCells (sq : Nat) (board_w : Board) (b : Board) (l : List (Int × Int)) : Board :=
  l.foldl (fun acc p => update_cell sq board_w acc p.1 p.2) b

/-- The cells of row i in column order, as visited by the inner for loop. -/
def rowCells (sq i : Nat) : List (Int × Int) :=
  (List.range sq).map (fun (j : Nat) => ((i : Int), (j : Int)))

/-- All cells in row-major order, as visited by loop_board's two nested
for loops. -/
def rowMajorCells (sq : Nat) : List (Int × Int) :=
  (List.range sq).foldr (fun i acc => rowCells sq i ++ acc) []

/-- The inner double loop of loop_board: update every cell in row-major
order in place, reading neighbor counts from the snapshot board_w. -/
def step_inplace (sq : Nat) (board_w b : Board) : Board :=
  foldCells sq board_w b (rowMajorCells sq)

/-- One generation of loop_board (the spec's step()): copy_board the
current board into the working board, then run the in-place double loop
against that snapshot. -/
def step (sq : Nat) (b : Board) : Board :=
  step_inplace sq (copy_board b b) b

/-- The value update_cell leaves at its own cell (i, j), as a function of
the cell's current value: the same ladder, with kill/produce replaced by
the written constants and the untouched branches returning the current
value. -/
def next_cell (sq : Nat) (board_w : Board) (cur : Int) (i j : Int) : Int :=
  let n := count_neighbors sq board_w i j
  if n < 2 then DEAD
  else if board_w i j = DEAD ∧ n = 3 then ALIVE
  else if n < 4 ∧ n > 1 then cur
  else if n > 3 then DEAD
  else cur

/-- The pure simultaneous update: every cell of the snapshot is mapped
through the per-cell rule independently, no order involved. -/
def step_pure (sq : Nat) (b : Board) : Board :=
  fun x y => next_cell sq b (b x y) x y

/-- The per-cell rule exactly as claim C1 words it: count < 2 gives DEAD;
else a DEAD cell with count exactly 3 becomes ALIVE; else count 2 or 3
leaves the state unchanged; else (count > 3) DEAD. -/
def spec_rule (state n : Int) : Int :=
  if n < 2 then DEAD
  else if state = DEAD ∧ n = 3 then ALIVE
  else if n = 2 ∨ n = 3 then state
  else DEAD

/-- The eight Moore-neighborhood offsets (row offset, column offset). -/
def moore_offsets : List (Int × Int) :=
  [(-1, -1), (-1, 0), (-1, 1), (0, -1), (0, 1), (1, -1), (1, 0), (1, 1)]

/-- Neighbor count as the specification words it: the sum of the eight
Moore neighbors with both coordinates wrapped modulo N (mathematical mod,
row -1 wrapping to row N-1). -/
def moore_sum (sq : Nat) (b : Board) (i j : Int) : Int :=
  (moore_offsets.map (fun d => b ((i + d.1) % sq) ((j + d.2) % sq))).sum

/-- The board whose only ALIVE cell is (0, 0). -/
def singleBoard : Board :=
  fun x y => if x = 0 ∧ y = 0 then ALIVE else DEAD

/-- Every cell of the board stores DEAD or ALIVE. -/
def WF (b : Board) : Prop := ∀ x y, b x y = DEAD ∨ b x y = ALIVE

/-- A bounds-checked grid read: some value when both coordinates are in
[0, N), none on the out-of-bounds error branch. -/
def readOpt (sq : Nat) (b : Board) (i j : Int) : Option Int :=
  if 0 ≤ i ∧ i < sq ∧ 0 ≤ j ∧ j < sq then some (b i j) else none

/-- A bounds-checked grid write. -/
def setCell_checked (sq : Nat) (b : Board) (i j v : Int) : Option Board :=
  if 0 ≤ i ∧ i < sq ∧ 0 ≤ j ∧ j < sq then some (setCell b i j v) else none

/-- count_neighbors with every one of its eight reads bounds-checked. -/
def count_neighbors_checked (sq : Nat) (board_w : Board) (i j : Int) : Option Int := do
  let up    ← readOpt sq board_w (Int.tmod (i - 1 + sq) sq) j
  let down  ← readOpt sq board_w (Int.tmod (i + 1 + sq) sq) j
  let left  ← readOpt sq board_w i (Int.tmod (j - 1 + sq) sq)
  let right ← readOpt sq board_w i (Int.tmod (j + 1 + sq) sq)
  let ll ← readOpt sq board_w (Int.tmod (i + 1 + sq) sq) (Int.tmod (j - 1 + sq) sq)
  let lr ← readOpt sq board_w (Int.tmod (i + 1 + sq) sq) (Int.tmod (j + 1 + sq) sq)
  let ul ← readOpt sq board_w (Int.tmod (i - 1 + sq) sq) (Int.tmod (j - 1 + sq) sq)
  let ur ← readOpt sq board_w (Int.tmod (i - 1 + sq) sq) (Int.tmod (j + 1 + sq) sq)
  pure (up + down + left + right + ll + lr + ul + ur)

/-- update_cell with every grid access bounds-checked: the neighbor
count, the `board_w[i][j] == DEAD` read, and the kill/produce writes. -/
def update_cell_checked (sq : Nat) (board_w : Board) (b : Board) (i j : Int) :
    Option Board := do
  let n ← count_neighbors_checked sq board_w i j
  let cur ← readOpt sq board_w i j
  if n < 2 then setCell_checked sq b i j DEAD
  else if cur = DEAD ∧ n = 3 then setCell_checked sq b i j ALIVE
  else if n < 4 ∧ n > 1 then pure b
  else if n > 3 then setCell_checked sq b i j DEAD
  else pure b

/-- The character write_board chooses for one cell: '#' for ALIVE, '-'
for DEAD, and for any other value the local `symbol` variable keeps its
previous contents. -/
def write_symbol (v : Int) (sym : Option Char) : Option Char :=
  if v = ALIVE then some '#' else if v = DEAD then some '-' else sym

/-- write_board from main.c as the sequence of characters sent to the
file: for each row, one character per cell (threading the local `symbol`
variable, none modelling its uninitialized start; emitting an
uninitialized symbol is rendered as an arbitrary placeholder character),
then a newline. -/
def write_board (sq : Nat) (b : Board) : List Char :=
  ((List.range sq).foldl
    (fun (st : Option Char × List Char) (i : Nat) =>
      let st2 := (List.range sq).foldl
        (fun (st2 : Option Char × List Char) (j : Nat) =>
          let s := write_symbol (b (i : Int) (j : Int)) st2.1
          (s, st2.2 ++ [s.getD '?']))
        st
      (st2.1, st2.2 ++ ['\n']))
    ((none : Option Char), [])).2

/-- The character loop of read_board from main.c: x is reset to 0 and y
incremented on a newline, '-' stores DEAD and '#' stores ALIVE into
`board[x][y]` (first index x, the position within the line), any other
character stores nothing, and every non-newline character advances x. -/
def read_go : List Char → Int → Int → Board → Board
  | [], _, _, b => b
  | ch :: rest, x, y, b =>
    if ch = '\n' then read_go rest 0 (y + 1) b
    else if ch = '-' then read_go rest (x + 1) y (setCell b x y DEAD)
    else if ch = '#' then read_go rest (x + 1) y (setCell b x y ALIVE)
    else read_go rest (x + 1) y b

/-- read_board from main.c: feed the file's characters through the
character loop starting from x = 0, y = 0, updating the given board. -/
def read_board (chars : List Char) (b : Board) : Board := read_go chars 0 0 b

/-- loop_board from main.c: for each of the g generations, copy_board
the current board into the working board, run the in-place double loop,
and write the board to the file; returns the final board together with
the successive file contents written. -/
def loop_board (sq : Nat) (g : Int) (b : Board) : Board × List (List Char) :=
  (List.range g.toNat).foldl
    (fun (st : Board × List (List Char)) (_ : Nat) =>
      let b2 := step_inplace sq (copy_board st.1 st.1) st.1
      (b2, st.2 ++ [write_board sq b2]))
    (b, [])

/-- Accumulate the decimal digits of a leading digit run, as atoi does. -/
def atoi_digits : List Char → Int → Int
  | [], acc => acc
  | ch :: rest, acc =>
    if '0' ≤ ch ∧ ch ≤ '9' then
      atoi_digits rest (acc * 10 + ((ch.toNat - '0'.toNat : Nat) : Int))
    else acc

/-- Drop the leading whitespace that atoi skips. -/
def atoi_skip : List Char → List Char
  | [] => []
  | ch :: rest =>
    if ch = ' ' ∨ ch = '\t' ∨ ch = '\n' ∨ ch = '\r' then atoi_skip rest
    else ch :: rest

/-- Modelled from the C standard library contract of atoi, which main.c
calls on its two arguments: skip whitespace, read an optional sign and a
leading run of digits, and return 0 when there are none (atoi itself is
libc code, not part of this repository). -/
def atoi (s : List Char) : Int :=
  match atoi_skip s with
  | [] => 0
  | ch :: rest =>
    if ch = '-' then - atoi_digits rest 0
    else if ch = '+' then atoi_digits rest 0
    else atoi_digits (ch :: rest) 0

/-- The externally observable outcome of one process run: the exit
status, whether the usage message was printed, and the successive
contents written to the board file. -/
structure RunResult where
  exitCode : Int
  usagePrinted : Bool
  fileWrites : List (List Char)
deriving DecidableEq

/-- The part of main after successful argument parsing: create_board
(zeroed grids), read_board from the board file, loop_board for g
generations, then one final write_board before exiting 0. -/
def run_after_parse (sq : Nat) (g : Int) (file : List Char) : RunResult :=
  let b0 := read_board file create_board
  let st := loop_board sq g b0
  ⟨0, false, st.2 ++ [write_board sq st.1]⟩

/-- main from main.c: with exactly three argv entries (program name plus
two arguments) it atoi-parses size and generations and runs the
simulation, exiting 0; with any other argument count it prints the usage
message and returns 1 before any grid or file work. -/
def main (args : List (List Char)) (file : List Char) : RunResult :=
  if args.length = 3 then
    run_after_parse (atoi (args.getD 1 [])).toNat (atoi (args.getD 2 [])) file
  else ⟨1, true, []⟩

/-- Indicator of membership in the two consecutive residues r, r + 1 of
ZMod sq; a 2 x 2 block is the product of a row band and a column band. -/
def pairInd (sq : Nat) (r u : ZMod sq) : Int :=
  if u = r ∨ u = r + 1 then 1 else 0

/-- The 2 x 2 block still life: ALIVE exactly on the cells whose row is
congruent to r or r + 1 and whose column is congruent to c or c + 1
modulo the grid size (an arbitrary, possibly wrapped, placement). -/
def blockBoard (sq : Nat) (r c : ZMod sq) : Board :=
  fun x y =>
    if ((x : ZMod sq) = r ∨ (x : ZMod sq) = r + 1) ∧
        ((y : ZMod sq) = c ∨ (y : ZMod sq) = c + 1) then ALIVE else DEAD

/-- 3 x 3 blinker: the middle row alive. -/
def blinker3 : Board :=
  fun x y => if x = 1 ∧ (y = 0 ∨ y = 1 ∨ y = 2) then ALIVE else DEAD

/-- 3 x 3 middle column pattern. -/
def blinkerCol3 : Board :=
  fun x y => if (x = 0 ∨ x = 1 ∨ x = 2) ∧ y = 1 then ALIVE else DEAD

/-- 5 x 5 blinker: row 2, columns 1 to 3 alive. -/
def blinker5 : Board :=
  fun x y => if x = 2 ∧ (y = 1 ∨ y = 2 ∨ y = 3) then ALIVE else DEAD

/-- 5 x 5 vertical blinker: column 2, rows 1 to 3 alive. -/
def blinkerCol5 : Board :=
  fun x y => if (x = 1 ∨ x = 2 ∨ x = 3) ∧ y = 2 then ALIVE else DEAD

/-- The round-trip test board for claim C3: a 2 x 2 grid whose only
ALIVE cell is row 0, column 1. -/
def c3Board : Board := setCell create_board 0 1 ALIVE

/-- Writing the C3 test board and reading the file back into a freshly
created board, exactly as a second program run would. -/
def c3Roundtrip : Board := read_board (write_board 2 c3Board) create_board

theorem setCell_self (b : Board) (i j v : Int) : setCell b i j v i j = v := by
  simp [setCell]

theorem setCell_other (b : Board) (i j v x y : Int) (h : ¬(x = i ∧ y = j)) :
    setCell b i j v x y = b x y := by
  simp [setCell, h]

theorem update_cell_self (sq : Nat) (bw b : Board) (i j : Int) :
    update_cell sq bw b i j i j = next_cell sq bw (b i j) i j := by
  simp only [update_cell, next_cell]
  split_ifs <;> simp [kill_cell, produce_cell, setCell]

theorem update_cell_other (sq : Nat) (bw b : Board) (i j x y : Int)
    (h : ¬(x = i ∧ y = j)) : update_cell sq bw b i j x y = b x y := by
  simp only [update_cell]
  split_ifs <;> simp [kill_cell, produce_cell, setCell, h]

theorem next_cell_idem (sq : Nat) (bw : Board) (cur i j : Int) :
    next_cell sq bw (next_cell sq bw cur i j) i j = next_cell sq bw cur i j := by
  simp only [next_cell]
  split_ifs <;> rfl

/-- Evaluating a visit of any list of cells at one point: the point gets
its next_cell value as soon as it occurs in the list, and is untouched
otherwise.  Repeated visits are harmless because next_cell is idempotent
in its current-value argument. -/
theorem foldCells_eval (sq : Nat) (bw : Board) :
    ∀ (l : List (Int × Int)) (b : Board) (x y : Int),
      foldCells sq bw b l x y =
        if (x, y) ∈ l then next_cell sq bw (b x y) x y else b x y := by
  intro l
  induction l with
  | nil => intro b x y; simp [foldCells]
  | cons p rest ih =>
    intro b x y
    obtain ⟨pi, pj⟩ := p
    have hstep : foldCells sq bw b ((pi, pj) :: rest) =
        foldCells sq bw (update_cell sq bw b pi pj) rest := rfl
    rw [hstep, ih]
    by_cases hp : x = pi ∧ y = pj
    · obtain ⟨rfl, rfl⟩ := hp
      rw [update_cell_self]
      by_cases hm : (x, y) ∈ rest
      · simp [hm, next_cell_idem]
      · simp [hm]
    · rw [update_cell_other sq bw b pi pj x y hp]
      have hmem : ((x, y) ∈ (pi, pj) :: rest) ↔ (x, y) ∈ rest := by
        simp [List.mem_cons, Prod.mk.injEq, hp]
      simp only [hmem]

theorem mem_rowsFold (sq : Nat) (p : Int × Int) :
    ∀ (l : List Nat) (init : List (Int × Int)),
      p ∈ l.foldr (fun i acc => rowCells sq i ++ acc) init ↔
        (∃ i ∈ l, p ∈ rowCells sq i) ∨ p ∈ init := by
  intro l
  induction l with
  | nil => intro init; simp
  | cons a l ih =>
    intro init
    constructor
    · intro h
      rw [List.foldr_cons, List.mem_append] at h
      rcases h with h | h
      · exact Or.inl ⟨a, List.mem_cons_self a l, h⟩
      · rcases (ih init).mp h with ⟨i, hi, hp⟩ | h2
        · exact Or.inl ⟨i, List.mem_cons_of_mem a hi, hp⟩
        · exact Or.inr h2
    · intro h
      rw [List.foldr_cons, List.mem_append]
      rcases h with ⟨i, hi, hp⟩ | h2
      · rcases List.mem_cons.mp hi with rfl | hi2
        · exact Or.inl hp
        · exact Or.inr ((ih init).mpr (Or.inl ⟨i, hi2, hp⟩))
      · exact Or.inr ((ih init).mpr (Or.inr h2))

theorem mem_rowMajorCells (sq : Nat) (x y : Int) :
    (x, y) ∈ rowMajorCells sq ↔
      0 ≤ x ∧ x < (sq : Int) ∧ 0 ≤ y ∧ y < (sq : Int) := by
  unfold rowMajorCells
  rw [mem_rowsFold]
  constructor
  · rintro (⟨i, hi, hp⟩ | h)
    · rw [List.mem_range] at hi
      unfold rowCells at hp
      rw [List.mem_map] at hp
      obtain ⟨j, hj, hpe⟩ := hp
      rw [List.mem_range] at hj
      have hx : (i : Int) = x := congrArg Prod.fst hpe
      have hy : (j : Int) = y := congrArg Prod.snd hpe
      omega
    · simp at h
  · rintro ⟨h1, h2, h3, h4⟩
    refine Or.inl ⟨x.toNat, ?_, ?_⟩
    · rw [List.mem_range]; omega
    · unfold rowCells
      rw [List.mem_map]
      exact ⟨y.toNat, by rw [List.mem_range]; omega,
        by rw [Prod.mk.injEq]; constructor <;> omega⟩

theorem step_inplace_eval (sq : Nat) (bw b : Board) (x y : Int) :
    step_inplace sq bw b x y =
      if 0 ≤ x ∧ x < (sq : Int) ∧ 0 ≤ y ∧ y < (sq : Int) then
        next_cell sq bw (b x y) x y
      else b x y := by
  unfold step_inplace
  rw [foldCells_eval]
  simp only [mem_rowMajorCells]

theorem step_eval (sq : Nat) (b : Board) (x y : Int) :
    step sq b x y =
      if 0 ≤ x ∧ x < (sq : Int) ∧ 0 ≤ y ∧ y < (sq : Int) then
        next_cell sq b (b x y) x y
      else b x y :=
  step_inplace_eval sq b b x y

theorem next_cell_eq_spec_rule (sq : Nat) (bw : Board) (i j : Int) :
    next_cell sq bw (bw i j) i j =
      spec_rule (bw i j) (count_neighbors sq bw i j) := by
  simp only [next_cell, spec_rule]
  split_ifs <;> first | rfl | omega

/-- Claim C1: for every well-formed N x N grid and every cell (i, j) in
range, one step() sets the cell exactly by the ordered rules: count < 2
gives DEAD; else a DEAD cell with count exactly 3 becomes ALIVE; else
count 2 or 3 leaves the state unchanged (a DEAD cell with count 2 stays
DEAD); else count > 3 gives DEAD. -/
theorem c1_step_follows_ordered_rules (sq : Nat) (b : Board) (hsq : 0 < sq)
    (hb : WF b) (i j : Int) (hi0 : 0 ≤ i) (hi : i < (sq : Int))
    (hj0 : 0 ≤ j) (hj : j < (sq : Int)) :
    step sq b i j = spec_rule (b i j) (count_neighbors sq b i j) := by
  rw [step_eval, if_pos ⟨hi0, hi, hj0, hj⟩]
  exact next_cell_eq_spec_rule sq b i j

theorem c1_witness :
    step 3 blinker3 1 1 = spec_rule (blinker3 1 1) (count_neighbors 3 blinker3 1 1) :=
  c1_step_follows_ordered_rules 3 blinker3 (by decide)
    (fun x y => by unfold blinker3; split <;> [exact Or.inr rfl; exact Or.inl rfl])
    1 1 (by decide) (by decide) (by decide) (by decide)

/-- Claim C4: for every well-formed grid, the in-place step (row-major,
writing into the current grid while reading the snapshot) agrees with
the pure simultaneous update on every cell, and visiting the cells in
any other order gives the same resulting grid. -/
theorem c4_inplace_refines_pure (sq : Nat) (b : Board) (hb : WF b) :
    (∀ x y : Int, 0 ≤ x → x < (sq : Int) → 0 ≤ y → y < (sq : Int) →
        step sq b x y = step_pure sq b x y) ∧
      (∀ l : List (Int × Int), l.Perm (rowMajorCells sq) →
        foldCells sq b b l = step sq b) := by
  constructor
  · intro x y h1 h2 h3 h4
    rw [step_eval, if_pos ⟨h1, h2, h3, h4⟩]; rfl
  · intro l hperm
    funext x y
    have h2 : step sq b x y = foldCells sq b b (rowMajorCells sq) x y := rfl
    rw [foldCells_eval, h2, foldCells_eval]
    simp only [hperm.mem_iff]

theorem c4_witness : step 2 create_board 0 0 = step_pure 2 create_board 0 0 :=
  (c4_inplace_refines_pure 2 create_board (fun x y => Or.inl rfl)).1 0 0
    (by decide) (by decide) (by decide) (by decide)

theorem tmod_shift (sq : Nat) (a : Int) (ha : 0 ≤ a + sq) :
    Int.tmod (a + sq) sq = a % (sq : Int) := by
  rw [Int.tmod_eq_emod ha (Int.natCast_nonneg sq), Int.add_emod_self]

theorem tmod_mul_self (sq : Nat) (k : Int) (hk : 0 ≤ k) :
    Int.tmod ((sq : Int) * k) sq = 0 := by
  rw [Int.tmod_eq_emod (mul_nonneg (Int.natCast_nonneg sq) hk) (Int.natCast_nonneg sq),
    Int.mul_emod_right]

theorem one_le_add8 (t1 t2 t3 t4 t5 t6 t7 t8 : Int)
    (h1 : 0 ≤ t1) (h2 : 0 ≤ t2) (h3 : 0 ≤ t3) (h4 : 0 ≤ t4)
    (h5 : 0 ≤ t5) (h6 : 0 ≤ t6) (h7 : 0 ≤ t7) (h8 : 0 ≤ t8)
    (hk : t1 = 1 ∨ t2 = 1 ∨ t3 = 1 ∨ t4 = 1 ∨ t5 = 1 ∨ t6 = 1 ∨ t7 = 1 ∨ t8 = 1) :
    1 ≤ t1 + t2 + t3 + t4 + t5 + t6 + t7 + t8 := by
  rcases hk with h | h | h | h | h | h | h | h <;> omega

/-- Claim C2: count_neighbors is the sum of the eight Moore neighbors
with both coordinates wrapped modulo N, and on the grid whose only ALIVE
cell is (0, 0) each of the eight wrapped neighbor cells of (0, 0) has a
neighbor count that includes that cell, none omitted. -/
theorem c2_neighbor_count_toroidal (sq : Nat) (hsq : 0 < sq) :
    (∀ (b : Board) (i j : Int), 0 ≤ i → i < (sq : Int) → 0 ≤ j → j < (sq : Int) →
        count_neighbors sq b i j = moore_sum sq b i j) ∧
      (2 ≤ sq →
        1 ≤ count_neighbors sq singleBoard ((sq : Int) - 1) ((sq : Int) - 1) ∧
        1 ≤ count_neighbors sq singleBoard ((sq : Int) - 1) 0 ∧
        1 ≤ count_neighbors sq singleBoard ((sq : Int) - 1) 1 ∧
        1 ≤ count_neighbors sq singleBoard 0 ((sq : Int) - 1) ∧
        1 ≤ count_neighbors sq singleBoard 0 1 ∧
        1 ≤ count_neighbors sq singleBoard 1 ((sq : Int) - 1) ∧
        1 ≤ count_neighbors sq singleBoard 1 0 ∧
        1 ≤ count_neighbors sq singleBoard 1 1) := by
  constructor
  · intro b i j hi0 hi1 hj0 hj1
    have hm1 : Int.tmod (i - 1 + sq) sq = (i - 1) % (sq : Int) :=
      tmod_shift sq (i - 1) (by omega)
    have hp1 : Int.tmod (i + 1 + sq) sq = (i + 1) % (sq : Int) :=
      tmod_shift sq (i + 1) (by omega)
    have hm2 : Int.tmod (j - 1 + sq) sq = (j - 1) % (sq : Int) :=
      tmod_shift sq (j - 1) (by omega)
    have hp2 : Int.tmod (j + 1 + sq) sq = (j + 1) % (sq : Int) :=
      tmod_shift sq (j + 1) (by omega)
    have hii : i % (sq : Int) = i := Int.emod_eq_of_lt hi0 hi1
    have hjj : j % (sq : Int) = j := Int.emod_eq_of_lt hj0 hj1
    simp only [count_neighbors, moore_sum, moore_offsets, List.map_cons, List.map_nil,
      List.sum_cons, List.sum_nil, add_zero, ← sub_eq_add_neg]
    rw [hm1, hp1, hm2, hp2, hii, hjj]
    ring
  · intro h2
    have hnn : ∀ x y : Int, 0 ≤ singleBoard x y := by
      intro x y; unfold singleBoard; split <;> norm_num
    have kS : Int.tmod (1 - 1 + (sq : Int)) sq = 0 := by
      have e : (1 - 1 + (sq : Int)) = (sq : Int) * 1 := by ring
      rw [e]; exact tmod_mul_self sq 1 (by norm_num)
    have k2S : Int.tmod ((sq : Int) - 1 + 1 + (sq : Int)) sq = 0 := by
      have e : ((sq : Int) - 1 + 1 + (sq : Int)) = (sq : Int) * 2 := by ring
      rw [e]; exact tmod_mul_self sq 2 (by norm_num)
    refine ⟨?_, ?_, ?_, ?_, ?_, ?_, ?_, ?_⟩
    · simp only [count_neighbors]
      exact one_le_add8 _ _ _ _ _ _ _ _ (hnn _ _) (hnn _ _) (hnn _ _) (hnn _ _)
        (hnn _ _) (hnn _ _) (hnn _ _) (hnn _ _)
        (Or.inr (Or.inr (Or.inr (Or.inr (Or.inr (Or.inl (by rw [k2S]; rfl)))))))
    · simp only [count_neighbors]
      exact one_le_add8 _ _ _ _ _ _ _ _ (hnn _ _) (hnn _ _) (hnn _ _) (hnn _ _)
        (hnn _ _) (hnn _ _) (hnn _ _) (hnn _ _)
        (Or.inr (Or.inl (by rw [k2S]; rfl)))
    · simp only [count_neighbors]
      exact one_le_add8 _ _ _ _ _ _ _ _ (hnn _ _) (hnn _ _) (hnn _ _) (hnn _ _)
        (hnn _ _) (hnn _ _) (hnn _ _) (hnn _ _)
        (Or.inr (Or.inr (Or.inr (Or.inr (Or.inl (by rw [k2S, kS]; rfl))))))
    · simp only [count_neighbors]
      exact one_le_add8 _ _ _ _ _ _ _ _ (hnn _ _) (hnn _ _) (hnn _ _) (hnn _ _)
        (hnn _ _) (hnn _ _) (hnn _ _) (hnn _ _)
        (Or.inr (Or.inr (Or.inr (Or.inl (by rw [k2S]; rfl)))))
    · simp only [count_neighbors]
      exact one_le_add8 _ _ _ _ _ _ _ _ (hnn _ _) (hnn _ _) (hnn _ _) (hnn _ _)
        (hnn _ _) (hnn _ _) (hnn _ _) (hnn _ _)
        (Or.inr (Or.inr (Or.inl (by rw [kS]; rfl))))
    · simp only [count_neighbors]
      exact one_le_add8 _ _ _ _ _ _ _ _ (hnn _ _) (hnn _ _) (hnn _ _) (hnn _ _)
        (hnn _ _) (hnn _ _) (hnn _ _) (hnn _ _)
        (Or.inr (Or.inr (Or.inr (Or.inr (Or.inr (Or.inr (Or.inr
          (by rw [kS, k2S]; rfl))))))))
    · simp only [count_neighbors]
      exact one_le_add8 _ _ _ _ _ _ _ _ (hnn _ _) (hnn _ _) (hnn _ _) (hnn _ _)
        (hnn _ _) (hnn _ _) (hnn _ _) (hnn _ _)
        (Or.inl (by rw [kS]; rfl))
    · simp only [count_neighbors]
      exact one_le_add8 _ _ _ _ _ _ _ _ (hnn _ _) (hnn _ _) (hnn _ _) (hnn _ _)
        (hnn _ _) (hnn _ _) (hnn _ _) (hnn _ _)
        (Or.inr (Or.inr (Or.inr (Or.inr (Or.inr (Or.inr (Or.inl
          (by rw [kS]; rfl))))))))

theorem c2_witness : count_neighbors 3 singleBoard 1 1 = moore_sum 3 singleBoard 1 1 :=
  (c2_neighbor_count_toroidal 3 (by norm_num)).1 singleBoard 1 1
    (by norm_num) (by norm_num) (by norm_num) (by norm_num)

theorem tmod_range (sq : Nat) (hsq : 0 < sq) (a : Int) (ha : 0 ≤ a) :
    0 ≤ Int.tmod a sq ∧ Int.tmod a sq < (sq : Int) :=
  ⟨Int.tmod_nonneg _ ha, Int.tmod_lt_of_pos a (by exact_mod_cast hsq)⟩

/-- Claim C9: with (i, j) in [0, N) every index used by count_neighbors
(the wrapped (i plus or minus 1 + N) mod N and the raw i, j) and by the
rule application lies in [0, N), so the out-of-bounds branch of the
bounds-checked embedding is unreachable: the checked variants return
some of the unchecked results. -/
theorem c9_no_oob_access (sq : Nat) (hsq : 0 < sq) (board_w b : Board) (i j : Int)
    (hi0 : 0 ≤ i) (hi1 : i < (sq : Int)) (hj0 : 0 ≤ j) (hj1 : j < (sq : Int)) :
    count_neighbors_checked sq board_w i j = some (count_neighbors sq board_w i j) ∧
      update_cell_checked sq board_w b i j = some (update_cell sq board_w b i j) := by
  have w1 := tmod_range sq hsq (i - 1 + sq) (by omega)
  have w2 := tmod_range sq hsq (i + 1 + sq) (by omega)
  have w3 := tmod_range sq hsq (j - 1 + sq) (by omega)
  have w4 := tmod_range sq hsq (j + 1 + sq) (by omega)
  have hcount : count_neighbors_checked sq board_w i j =
      some (count_neighbors sq board_w i j) := by
    simp [count_neighbors_checked, count_neighbors, readOpt,
      w1.1, w1.2, w2.1, w2.2, w3.1, w3.2, w4.1, w4.2, hi0, hi1, hj0, hj1]
  refine ⟨hcount, ?_⟩
  simp only [update_cell_checked, hcount, Option.bind_eq_bind, Option.some_bind]
  simp [readOpt, hi0, hi1, hj0, hj1, update_cell, setCell_checked,
    kill_cell, produce_cell]
  split_ifs <;> rfl

theorem c9_witness :
    count_neighbors_checked 1 create_board 0 0 = some (count_neighbors 1 create_board 0 0) :=
  (c9_no_oob_access 1 (by norm_num) create_board create_board 0 0
    (by norm_num) (by norm_num) (by norm_num) (by norm_num)).1

theorem setCell_wf (b : Board) (i j v : Int) (hb : WF b)
    (hv : v = DEAD ∨ v = ALIVE) : WF (setCell b i j v) := by
  intro x y
  unfold setCell
  split
  · exact hv
  · exact hb x y

theorem next_cell_wf (sq : Nat) (bw : Board) (cur i j : Int)
    (hc : cur = DEAD ∨ cur = ALIVE) :
    next_cell sq bw cur i j = DEAD ∨ next_cell sq bw cur i j = ALIVE := by
  simp only [next_cell]
  split_ifs <;> first | exact Or.inl rfl | exact Or.inr rfl | exact hc

theorem read_go_wf :
    ∀ (chars : List Char) (x y : Int) (b : Board), WF b → WF (read_go chars x y b) := by
  intro chars
  induction chars with
  | nil => intro x y b hb; exact hb
  | cons ch rest ih =>
    intro x y b hb
    simp only [read_go]
    split_ifs
    · exact ih _ _ _ hb
    · exact ih _ _ _ (setCell_wf b x y DEAD hb (Or.inl rfl))
    · exact ih _ _ _ (setCell_wf b x y ALIVE hb (Or.inr rfl))
    · exact ih _ _ _ hb

theorem wf_bounds (b : Board) (hb : WF b) (x y : Int) : 0 ≤ b x y ∧ b x y ≤ 1 := by
  rcases hb x y with h | h <;> simp [h]

/-- Claim C10: the freshly created (zeroed) grids are well formed, and
read_board on any input, copy_board and every generation step preserve
the invariant that each cell is DEAD (0) or ALIVE (1); consequently
every neighbor count lies in [0, 8]. -/
theorem c10_cells_binary_invariant :
    WF create_board ∧
      (∀ (chars : List Char) (b : Board), WF b → WF (read_board chars b)) ∧
      (∀ src dst : Board, WF src → WF (copy_board src dst)) ∧
      (∀ (sq : Nat) (b : Board), WF b → WF (step sq b)) ∧
      (∀ (sq : Nat) (b : Board) (i j : Int), WF b →
        0 ≤ count_neighbors sq b i j ∧ count_neighbors sq b i j ≤ 8) := by
  refine ⟨fun x y => Or.inl rfl, ?_, ?_, ?_, ?_⟩
  · intro chars b hb
    exact read_go_wf chars 0 0 b hb
  · intro src dst hb
    exact hb
  · intro sq b hb x y
    rw [step_eval]
    split
    · exact next_cell_wf sq b (b x y) x y (hb x y)
    · exact hb x y
  · intro sq b i j hb
    simp only [count_neighbors]
    have g1 := wf_bounds b hb (Int.tmod (i - 1 + sq) sq) j
    have g2 := wf_bounds b hb (Int.tmod (i + 1 + sq) sq) j
    have g3 := wf_bounds b hb i (Int.tmod (j - 1 + sq) sq)
    have g4 := wf_bounds b hb i (Int.tmod (j + 1 + sq) sq)
    have g5 := wf_bounds b hb (Int.tmod (i + 1 + sq) sq) (Int.tmod (j - 1 + sq) sq)
    have g6 := wf_bounds b hb (Int.tmod (i + 1 + sq) sq) (Int.tmod (j + 1 + sq) sq)
    have g7 := wf_bounds b hb (Int.tmod (i - 1 + sq) sq) (Int.tmod (j - 1 + sq) sq)
    have g8 := wf_bounds b hb (Int.tmod (i - 1 + sq) sq) (Int.tmod (j + 1 + sq) sq)
    omega

theorem c10_witness : WF (step 2 (read_board ['#'] create_board)) :=
  c10_cells_binary_invariant.2.2.2.1 2 _
    (c10_cells_binary_invariant.2.1 ['#'] create_board c10_cells_binary_invariant.1)

theorem loop_board_eq (sq : Nat) (g : Int) (b : Board) :
    loop_board sq g b =
      ((step sq)^[g.toNat] b,
        (List.range g.toNat).map (fun (k : Nat) => write_board sq ((step sq)^[k + 1] b))) := by
  unfold loop_board
  generalize g.toNat = n
  induction n with
  | zero => simp
  | succ m ih =>
    rw [List.range_succ, List.foldl_append, ih, List.map_append]
    dsimp only [List.foldl_cons, List.foldl_nil, List.map_cons, List.map_nil]
    have hs : step_inplace sq (copy_board ((step sq)^[m] b) ((step sq)^[m] b))
        ((step sq)^[m] b) = (step sq)^[m + 1] b := by
      rw [Function.iterate_succ_apply']
      rfl
    rw [hs]

/-- Claim C5: loop_board performs exactly max(G, 0) generation steps
(each of which starts by copying the current grid into the working
grid), writing the board file after each step, and main writes the final
state once more after the loop; for G at most 0 no step runs and the
grid is left as loaded. -/
theorem c5_run_generations (sq : Nat) (g : Int) (b : Board) (file : List Char) :
    (loop_board sq g b).1 = (step sq)^[g.toNat] b ∧
      (loop_board sq g b).2 =
        (List.range g.toNat).map (fun (k : Nat) => write_board sq ((step sq)^[k + 1] b)) ∧
      (loop_board sq g b).2.length = g.toNat ∧
      (g ≤ 0 → loop_board sq g b = (b, [])) ∧
      (run_after_parse sq g file).fileWrites =
        (loop_board sq g (read_board file create_board)).2 ++
          [write_board sq (loop_board sq g (read_board file create_board)).1] := by
  have h := loop_board_eq sq g b
  refine ⟨by rw [h], by rw [h], by rw [h]; simp, ?_, rfl⟩
  intro hg
  have hz : g.toNat = 0 := by omega
  rw [h, hz]
  simp

theorem c5_witness : loop_board 2 (-1) create_board = (create_board, []) :=
  (c5_run_generations 2 (-1) create_board []).2.2.2.1 (by norm_num)

/-- Claim C3 fails on the code: write_board stores row i as line i, but
read_board stores line y, position x into board[x][y], so a write/read
round trip produces the transpose of the grid, not the grid.  On the
2 x 2 board whose only ALIVE cell is (0, 1), the file reads back with
the ALIVE cell at (1, 0). -/
theorem c3_roundtrip_transposes :
    write_board 2 c3Board = ['-', '#', '\n', '-', '-', '\n'] ∧
      c3Board 0 1 = ALIVE ∧ c3Roundtrip 0 1 = DEAD ∧ c3Roundtrip 1 0 = ALIVE ∧
      (∀ x : Nat, x < 2 → ∀ y : Nat, y < 2 →
        c3Roundtrip (x : Int) (y : Int) = c3Board (y : Int) (x : Int)) := by
  decide

/-- Claim C6 fails on the code for non-numeric arguments: main only
checks the argument count; with three argv entries whose two arguments
are non-numeric, atoi yields 0, the simulation runs, the board file is
written (truncated), no usage message is printed and the exit status is
0. -/
theorem c6_counterexample :
    (main [['m'], ['a', 'b', 'c'], ['x', 'y', 'z']] []).exitCode = 0 ∧
      (main [['m'], ['a', 'b', 'c'], ['x', 'y', 'z']] []).usagePrinted = false ∧
      (main [['m'], ['a', 'b', 'c'], ['x', 'y', 'z']] []).fileWrites ≠ [] := by
  decide

/-- Claim C6 amended: with an argument count other than two the program
prints the usage message, exits 1 and performs no file writes.  The
program does not validate argument content: with exactly two arguments
it never prints the usage message and proceeds with the atoi-parsed
values (non-numeric text parsing as 0); in particular, invoked with two
non-numeric arguments (both parsing as 0) and an empty board file it
runs the simulation, prints no usage message, writes the board file
once (the final persist of the size-0 board, an empty file) and exits
with status 0. -/
theorem c6_args_behavior (args : List (List Char)) (file : List Char) :
    (args.length ≠ 3 → main args file = ⟨1, true, []⟩) ∧
      (args.length = 3 → (main args file).usagePrinted = false) ∧
      main [['m'], ['a', 'b', 'c'], ['x', 'y', 'z']] [] = ⟨0, false, [[]]⟩ := by
  refine ⟨?_, ?_, by decide⟩
  · intro h
    unfold main
    rw [if_neg h]
  · intro h
    unfold main
    rw [if_pos h]
    rfl

theorem c6_witness : main [[]] [] = ⟨1, true, []⟩ :=
  (c6_args_behavior [[]] []).1 (by decide)

theorem intCast_tmod (sq : Nat) (a : Int) :
    ((Int.tmod a sq : Int) : ZMod sq) = (a : ZMod sq) := by
  conv_rhs => rw [← Int.tmod_add_tdiv a (sq : Int)]
  push_cast
  simp

theorem zmod_natCast_ne_zero (sq k : Nat) (hk1 : 0 < k) (hk2 : k < sq) :
    ((k : Nat) : ZMod sq) ≠ 0 := by
  haveI : NeZero sq := ⟨by omega⟩
  intro h
  rw [ZMod.natCast_zmod_eq_zero_iff_dvd] at h
  exact absurd (Nat.le_of_dvd hk1 h) (by omega)

theorem pairInd_eq_one (sq : Nat) (r w : ZMod sq) (h : w = r ∨ w = r + 1) :
    pairInd sq r w = 1 := by
  unfold pairInd
  rw [if_pos h]

theorem pairInd_eq_zero (sq : Nat) (r w : ZMod sq) (h1 : w ≠ r) (h2 : w ≠ r + 1) :
    pairInd sq r w = 0 := by
  unfold pairInd
  rw [if_neg]
  rintro (h | h)
  exacts [h1 h, h2 h]

/-- For any residue u, the three indicator values at u - 1, u, u + 1 form
one of five patterns, because a band of two consecutive residues meets a
window of three consecutive residues in 0, 1 or 2 places (here grid size
at least 4 keeps the four residues around the band distinct). -/
theorem pairInd_profile (sq : Nat) (hsq : 4 ≤ sq) (r u : ZMod sq) :
    (pairInd sq r (u - 1) = 0 ∧ pairInd sq r u = 0 ∧ pairInd sq r (u + 1) = 0) ∨
      (pairInd sq r (u - 1) = 0 ∧ pairInd sq r u = 0 ∧ pairInd sq r (u + 1) = 1) ∨
      (pairInd sq r (u - 1) = 0 ∧ pairInd sq r u = 1 ∧ pairInd sq r (u + 1) = 1) ∨
      (pairInd sq r (u - 1) = 1 ∧ pairInd sq r u = 1 ∧ pairInd sq r (u + 1) = 0) ∨
      (pairInd sq r (u - 1) = 1 ∧ pairInd sq r u = 0 ∧ pairInd sq r (u + 1) = 0) := by
  have one : (1 : ZMod sq) ≠ 0 := by
    have h := zmod_natCast_ne_zero sq 1 (by omega) (by omega)
    rwa [Nat.cast_one] at h
  have two : (2 : ZMod sq) ≠ 0 := by
    have h := zmod_natCast_ne_zero sq 2 (by omega) (by omega)
    rwa [Nat.cast_ofNat] at h
  have three : (3 : ZMod sq) ≠ 0 := by
    have h := zmod_natCast_ne_zero sq 3 (by omega) (by omega)
    rwa [Nat.cast_ofNat] at h
  by_cases h1 : u = r
  · rw [h1]
    refine Or.inr (Or.inr (Or.inl ⟨?_, ?_, ?_⟩))
    · exact pairInd_eq_zero sq r _ (fun h => one (by linear_combination -h))
        (fun h => two (by linear_combination -h))
    · exact pairInd_eq_one sq r r (Or.inl rfl)
    · exact pairInd_eq_one sq r (r + 1) (Or.inr rfl)
  by_cases h2 : u = r + 1
  · rw [h2]
    refine Or.inr (Or.inr (Or.inr (Or.inl ⟨?_, ?_, ?_⟩)))
    · exact pairInd_eq_one sq r (r + 1 - 1) (Or.inl (by ring))
    · exact pairInd_eq_one sq r (r + 1) (Or.inr rfl)
    · exact pairInd_eq_zero sq r _ (fun h => two (by linear_combination h))
        (fun h => one (by linear_combination h))
  by_cases h3 : u = r - 1
  · rw [h3]
    refine Or.inr (Or.inl ⟨?_, ?_, ?_⟩)
    · exact pairInd_eq_zero sq r _ (fun h => two (by linear_combination -h))
        (fun h => three (by linear_combination -h))
    · exact pairInd_eq_zero sq r _ (fun h => one (by linear_combination -h))
        (fun h => two (by linear_combination -h))
    · exact pairInd_eq_one sq r (r - 1 + 1) (Or.inl (by ring))
  by_cases h5 : u = r + 2
  · rw [h5]
    refine Or.inr (Or.inr (Or.inr (Or.inr ⟨?_, ?_, ?_⟩)))
    · exact pairInd_eq_one sq r (r + 2 - 1) (Or.inr (by ring))
    · exact pairInd_eq_zero sq r _ (fun h => two (by linear_combination h))
        (fun h => one (by linear_combination h))
    · exact pairInd_eq_zero sq r _ (fun h => three (by linear_combination h))
        (fun h => two (by linear_combination h))
  · refine Or.inl ⟨?_, ?_, ?_⟩
    · exact pairInd_eq_zero sq r _ (fun h => h2 (by linear_combination h))
        (fun h => h5 (by linear_combination h))
    · exact pairInd_eq_zero sq r u h1 h2
    · exact pairInd_eq_zero sq r _ (fun h => h3 (by linear_combination h))
        (fun h => h1 (by linear_combination h))

theorem blockBoard_eq_mul (sq : Nat) (r c : ZMod sq) (x y : Int) :
    blockBoard sq r c x y =
      pairInd sq r ((x : ZMod sq)) * pairInd sq c ((y : ZMod sq)) := by
  unfold blockBoard pairInd
  split_ifs <;> first | tauto | norm_num

theorem count_neighbors_block (sq : Nat) (r c : ZMod sq) (x y : Int) :
    count_neighbors sq (blockBoard sq r c) x y =
      (pairInd sq r ((x : ZMod sq) - 1) + pairInd sq r ((x : ZMod sq)) +
          pairInd sq r ((x : ZMod sq) + 1)) *
        (pairInd sq c ((y : ZMod sq) - 1) + pairInd sq c ((y : ZMod sq)) +
          pairInd sq c ((y : ZMod sq) + 1)) -
      pairInd sq r ((x : ZMod sq)) * pairInd sq c ((y : ZMod sq)) := by
  have hx1 : ((Int.tmod (x - 1 + (sq : Int)) (sq : Int) : Int) : ZMod sq) =
      (x : ZMod sq) - 1 := by
    rw [intCast_tmod]
    push_cast [ZMod.natCast_self]
    ring
  have hx2 : ((Int.tmod (x + 1 + (sq : Int)) (sq : Int) : Int) : ZMod sq) =
      (x : ZMod sq) + 1 := by
    rw [intCast_tmod]
    push_cast [ZMod.natCast_self]
    ring
  have hy1 : ((Int.tmod (y - 1 + (sq : Int)) (sq : Int) : Int) : ZMod sq) =
      (y : ZMod sq) - 1 := by
    rw [intCast_tmod]
    push_cast [ZMod.natCast_self]
    ring
  have hy2 : ((Int.tmod (y + 1 + (sq : Int)) (sq : Int) : Int) : ZMod sq) =
      (y : ZMod sq) + 1 := by
    rw [intCast_tmod]
    push_cast [ZMod.natCast_self]
    ring
  simp only [count_neighbors, blockBoard_eq_mul, hx1, hx2, hy1, hy2]
  ring

theorem blockBoard_next_cell (sq : Nat) (hsq : 4 ≤ sq) (r c : ZMod sq) (x y : Int) :
    next_cell sq (blockBoard sq r c) (blockBoard sq r c x y) x y =
      blockBoard sq r c x y := by
  have hu := pairInd_profile sq hsq r ((x : ZMod sq))
  have hv := pairInd_profile sq hsq c ((y : ZMod sq))
  simp only [next_cell, count_neighbors_block, blockBoard_eq_mul]
  rcases hu with ⟨e1, e2, e3⟩ | ⟨e1, e2, e3⟩ | ⟨e1, e2, e3⟩ | ⟨e1, e2, e3⟩ | ⟨e1, e2, e3⟩ <;>
    rcases hv with ⟨f1, f2, f3⟩ | ⟨f1, f2, f3⟩ | ⟨f1, f2, f3⟩ | ⟨f1, f2, f3⟩ | ⟨f1, f2, f3⟩ <;>
      rw [e1, e2, e3, f1, f2, f3] <;> norm_num

theorem blockBoard_step_fixed (sq : Nat) (hsq : 4 ≤ sq) (r c : ZMod sq) :
    step sq (blockBoard sq r c) = blockBoard sq r c := by
  funext x y
  rw [step_eval]
  split
  · exact blockBoard_next_cell sq hsq r c x y
  · rfl

/-- Claim C7: for every grid size N at least 4 and every (possibly
wrapped) placement of a 2 x 2 block of ALIVE cells on an otherwise
all-DEAD toroidal grid, the grid is a fixed point of step(): unchanged
after any number of steps. -/
theorem c7_block_still_life (sq : Nat) (hsq : 4 ≤ sq) (r c : ZMod sq) (k : Nat) :
    (step sq)^[k] (blockBoard sq r c) = blockBoard sq r c :=
  Function.iterate_fixed (blockBoard_step_fixed sq hsq r c) k

theorem c7_witness : (step 4)^[2] (blockBoard 4 0 0) = blockBoard 4 0 0 :=
  c7_block_still_life 4 (by norm_num) 0 0 2

/-- Claim C8 fails on the code: on the 3 x 3 toroidal grid every cell is
a neighbor of every other cell, so after one step of the middle-row
blinker all nine cells are ALIVE (in particular (0, 0), which the
claimed middle-column pattern leaves DEAD). -/
theorem c8_counterexample :
    step 3 blinker3 0 0 = ALIVE ∧ blinkerCol3 0 0 = DEAD ∧
      (∀ x : Nat, x < 3 → ∀ y : Nat, y < 3 →
        step 3 blinker3 (x : Int) (y : Int) = ALIVE) := by
  decide

/-- Claim C8 amended: on a 5 x 5 grid (large enough that wraparound does
not interfere) the middle-row blinker rotates to the middle column after
one step and returns to the original row after two steps. -/
theorem c8_blinker_period_two :
    (∀ x : Nat, x < 5 → ∀ y : Nat, y < 5 →
        step 5 blinker5 (x : Int) (y : Int) = blinkerCol5 (x : Int) (y : Int)) ∧
      (∀ x : Nat, x < 5 → ∀ y : Nat, y < 5 →
        step 5 (step 5 blinker5) (x : Int) (y : Int) = blinker5 (x : Int) (y : Int)) := by
  decide

end ConwayGoL
